import Mathlib

/-!
Shallow embedding of the digit codec core of `src/zenkaku.cc`.

The program converts ASCII digits embedded in byte strings to decorative
Unicode digits (fullwidth, circled, roman-numeral-like, Chinese, Thai) and
back.  We model byte strings as `List Nat` (each element a byte value
0..255) and wide characters (the C++ `wchar_t` values the encoders write)
as `Int`, because on the target platform `char` is signed, so
`static_cast<wchar_t>(ch)` yields a negative value for bytes 0x80..0xFF.
The wide output stream converts each wide character to UTF-8 bytes via the
`en_US.utf8` locale; we model that conversion as `utf8Encode?`, which is
`none` exactly when the codepoint is not a Unicode scalar value (negative,
a surrogate, or above 0x10FFFF), i.e. when the real codecvt would fail.
-/

/-- The five registered converter classes of `zenkaku.cc`. -/
inductive Variant where
  | fullwidth
  | circle
  | roman
  | chinese
  | thai
deriving DecidableEq, Repr

/-- The encode tables. `fullwidth` uses the arithmetic `0xFF10 + (ch - 0x30)`
(line 28), `circle` branches on zero (lines 66-71), and `roman`, `chinese`
and `thai` each use a 10-entry vector of single-codepoint wide strings
(lines 113-114, 172-173, 227-228).  `d` is the digit value 0..9; the
default of `getD` is never reached because callers pass `d ≤ 9`. -/
def digitCodepoint : Variant → Nat → Nat
  | .fullwidth, d => 0xFF10 + d
  | .circle, d => if d = 0 then 0x24EA else 0x2460 + (d - 1)
  | .roman, d =>
      [0xFF10, 0x2160, 0x2161, 0x2162, 0x2163,
       0x2164, 0x2165, 0x2166, 0x2167, 0x2168].getD d 0
  | .chinese, d =>
      [0x3007, 0x4E00, 0x4E8C, 0x4E09, 0x56DB,
       0x4E94, 0x516D, 0x4E03, 0x516B, 0x4E5D].getD d 0
  | .thai, d =>
      [0x0E50, 0x0E51, 0x0E52, 0x0E53, 0x0E54,
       0x0E55, 0x0E56, 0x0E57, 0x0E58, 0x0E59].getD d 0

/-- Value of `static_cast<wchar_t>(ch)` for a byte `b`: `char` is signed on
the target platform, so bytes 0x80..0xFF become negative wide characters. -/
def signedChar (b : Nat) : Int :=
  if b < 0x80 then (b : Int) else (b : Int) - 256

/-- The wide character each converter writes for one input byte: the
variant codepoint for an ASCII digit byte (`ch >= '0' && ch <= '9'`),
otherwise the byte cast to `wchar_t` (e.g. lines 26-33 of the source). -/
def wideChar (v : Variant) (b : Nat) : Int :=
  if 0x30 ≤ b ∧ b ≤ 0x39 then (digitCodepoint v (b - 0x30) : Int)
  else signedChar b

/-- UTF-8 encoding of one codepoint, as performed by the `en_US.utf8`
locale codecvt on the wide output stream; `none` when the value is not a
Unicode scalar value and the conversion fails. -/
def utf8Encode? (c : Int) : Option (List Nat) :=
  if c < 0 then none
  else
    let n := c.toNat
    if n < 0x80 then some [n]
    else if n < 0x800 then some [0xC0 + n / 0x40, 0x80 + n % 0x40]
    else if 0xD800 ≤ n ∧ n ≤ 0xDFFF then none
    else if n < 0x10000 then
      some [0xE0 + n / 0x1000, 0x80 + n / 0x40 % 0x40, 0x80 + n % 0x40]
    else if n < 0x110000 then
      some [0xF0 + n / 0x40000, 0x80 + n / 0x1000 % 0x40,
            0x80 + n / 0x40 % 0x40, 0x80 + n % 0x40]
    else none

/-- Byte-level encode (`convert` of each converter followed by the wide
stream UTF-8 conversion): each input byte yields the UTF-8 bytes of the
wide character written for it; `none` when some wide character is not
convertible (only possible for input bytes 0x80..0xFF, which become
negative `wchar_t` values). -/
def convertBytes (v : Variant) : List Nat → Option (List Nat)
  | [] => some []
  | b :: rest =>
      match utf8Encode? (wideChar v b), convertBytes v rest with
      | some bs, some out => some (bs ++ out)
      | _, _ => none

/-- One match attempt of a `reverse` implementation at a window of three
bytes `b0 b1 b2`: `some a` when the window matches one of the variant
patterns, where `a` is the ASCII byte the source writes; `none` otherwise.
Transcribed branch for branch from the source:
fullwidth lines 39-46 (EF BC 90..99), circle lines 82-99 (E2 91 A0..A8 for
1..9, then E2 92 AA for 0 — the zero branch as written, even though the
comment above it names U+24EA whose UTF-8 is E2 93 AA), roman lines
140-154 (EF BC 90 then E2 85 A0), chinese lines 195-209 (E3 80 87 then
E4 B8 80), thai lines 247-254 (E0 B9 90..99).  The circle digit branch
writes `(char)(0x31 + b2 - 0xA0)`; the signed `char` arithmetic of line 88
produces exactly this value modulo 256. -/
def matchHead : Variant → Nat → Nat → Nat → Option Nat
  | .fullwidth, b0, b1, b2 =>
      if b0 = 0xEF ∧ b1 = 0xBC ∧ 0x90 ≤ b2 ∧ b2 ≤ 0x99 then
        some (0x30 + (b2 - 0x90))
      else none
  | .circle, b0, b1, b2 =>
      if b0 = 0xE2 ∧ b1 = 0x91 ∧ 0xA0 ≤ b2 ∧ b2 ≤ 0xA8 then
        some (0x31 + (b2 - 0xA0))
      else if b0 = 0xE2 ∧ b1 = 0x92 ∧ b2 = 0xAA then some 0x30
      else none
  | .roman, b0, b1, b2 =>
      if b0 = 0xEF ∧ b1 = 0xBC ∧ b2 = 0x90 then some 0x30
      else if b0 = 0xE2 ∧ b1 = 0x85 ∧ b2 = 0xA0 then some 0x31
      else none
  | .chinese, b0, b1, b2 =>
      if b0 = 0xE3 ∧ b1 = 0x80 ∧ b2 = 0x87 then some 0x30
      else if b0 = 0xE4 ∧ b1 = 0xB8 ∧ b2 = 0x80 then some 0x31
      else none
  | .thai, b0, b1, b2 =>
      if b0 = 0xE0 ∧ b1 = 0xB9 ∧ 0x90 ≤ b2 ∧ b2 ≤ 0x99 then
        some (0x30 + (b2 - 0x90))
      else none

/-- Byte-level decode (`reverse` of each converter).  Every source
`reverse` loop has the same shape: while bytes remain, if at least three
bytes remain from the cursor (`i + 2 < input.length()`) and the window
matches (`matchHead`), write the ASCII digit and advance by 3; otherwise
copy the current byte and advance by 1.  With fewer than three bytes
remaining no pattern can match and each byte is copied. -/
def reverseBytes (v : Variant) : List Nat → List Nat
  | [] => []
  | [b0] => [b0]
  | [b0, b1] => [b0, b1]
  | b0 :: b1 :: b2 :: rest =>
      match matchHead v b0 b1 b2 with
      | some a => a :: reverseBytes v rest
      | none => b0 :: reverseBytes v (b1 :: b2 :: rest)

/-- Whether the byte string contains, at any offset, a three-byte window
matching one of the variant patterns (the windows a `reverse` scan can
ever test). -/
def hasMatch (v : Variant) : List Nat → Bool
  | b0 :: b1 :: b2 :: rest =>
      (matchHead v b0 b1 b2).isSome || hasMatch v (b1 :: b2 :: rest)
  | _ => false

/-- Fuel-indexed version of the decode loop: one unit of fuel per loop
iteration, `none` when fuel runs out with input left.  Used to state that
the loop always terminates within `input.length` iterations, because every
iteration advances the cursor by at least one byte. -/
def reverseBytesFuel (v : Variant) : Nat → List Nat → Option (List Nat)
  | _, [] => some []
  | 0, _ :: _ => none
  | f + 1, [b0] => (reverseBytesFuel v f []).map (b0 :: ·)
  | f + 1, [b0, b1] => (reverseBytesFuel v f [b1]).map (b0 :: ·)
  | f + 1, b0 :: b1 :: b2 :: rest =>
      match matchHead v b0 b1 b2 with
      | some a => (reverseBytesFuel v f rest).map (a :: ·)
      | none => (reverseBytesFuel v f (b1 :: b2 :: rest)).map (b0 :: ·)

/-- `getName` of each converter class (lines 56, 106, 165, 220, 267). -/
def variantName : Variant → String
  | .fullwidth => "fullwidth"
  | .circle => "circle"
  | .roman => "roman"
  | .chinese => "chinese"
  | .thai => "thai"

/-- The registry contents: `ConverterRegistry` registers the five
converters keyed by their `getName` (lines 277-289). -/
def registryList : List (String × Variant) :=
  [(variantName .fullwidth, .fullwidth),
   (variantName .circle, .circle),
   (variantName .roman, .roman),
   (variantName .chinese, .chinese),
   (variantName .thai, .thai)]

/-- `ConverterRegistry::getConverter` (lines 291-294): exact key lookup in
the map; a missing name yields the null result, modelled as `none`. -/
def getConverter (name : String) : Option Variant :=
  (registryList.find? (fun p => p.1 == name)).map (fun p => p.2)

/-! ## Helper lemmas -/

/-- A decode scan over a string in which no three-byte window matches any
of the variant patterns copies every byte through unchanged. -/
theorem reverseBytes_eq_of_not_hasMatch (v : Variant) :
    ∀ s : List Nat, hasMatch v s = false → reverseBytes v s = s
  | [], _ => rfl
  | [_], _ => rfl
  | [_, _], _ => rfl
  | b0 :: b1 :: b2 :: rest, h => by
      simp only [hasMatch, Bool.or_eq_false_iff] at h
      obtain ⟨h1, h2⟩ := h
      have hm : matchHead v b0 b1 b2 = none := by
        cases hmm : matchHead v b0 b1 b2 with
        | none => rfl
        | some a => rw [hmm] at h1; simp at h1
      simp only [reverseBytes, hm]
      exact congrArg (b0 :: ·) (reverseBytes_eq_of_not_hasMatch v (b1 :: b2 :: rest) h2)
termination_by s => s.length

/-- Each decode loop iteration writes at most as many bytes as it
consumes, so the output is never longer than the input. -/
theorem reverseBytes_length_le (v : Variant) :
    ∀ s : List Nat, (reverseBytes v s).length ≤ s.length
  | [] => le_refl _
  | [_] => le_refl _
  | [_, _] => le_refl _
  | b0 :: b1 :: b2 :: rest => by
      simp only [reverseBytes]
      split
      · have := reverseBytes_length_le v rest
        simp only [List.length_cons]
        omega
      · have := reverseBytes_length_le v (b1 :: b2 :: rest)
        simp only [List.length_cons] at this ⊢
        omega
termination_by s => s.length

/-- With fewer than three bytes no window check can fire, so the decode
loop copies each remaining byte through unchanged. -/
theorem reverseBytes_eq_of_short (v : Variant) (s : List Nat)
    (h : s.length < 3) : reverseBytes v s = s := by
  match s with
  | [] => rfl
  | [_] => rfl
  | [_, _] => rfl
  | _ :: _ :: _ :: _ => simp only [List.length_cons] at h; omega

/-- The fueled decode loop finishes with `some` whenever it is given at
least one unit of fuel per input byte: every iteration consumes at least
one byte, so `s.length` iterations always suffice. -/
theorem reverseBytesFuel_eq (v : Variant) :
    ∀ (s : List Nat) (f : Nat), s.length ≤ f →
      reverseBytesFuel v f s = some (reverseBytes v s)
  | [], f, _ => by cases f <;> rfl
  | [b0], f, h => by
      obtain ⟨f1, rfl⟩ : ∃ f1, f = f1 + 1 := ⟨f - 1, by simp at h; omega⟩
      simp [reverseBytesFuel, reverseBytes]
  | [b0, b1], f, h => by
      obtain ⟨f1, rfl⟩ : ∃ f1, f = f1 + 1 := ⟨f - 1, by simp at h; omega⟩
      have h1 : ([b1] : List Nat).length ≤ f1 := by simp at h ⊢; omega
      simp only [reverseBytesFuel, reverseBytesFuel_eq v [b1] f1 h1]
      rfl
  | b0 :: b1 :: b2 :: rest, f, h => by
      obtain ⟨f1, rfl⟩ : ∃ f1, f = f1 + 1 := ⟨f - 1, by simp at h; omega⟩
      simp only [List.length_cons] at h
      simp only [reverseBytesFuel, reverseBytes]
      cases hm : matchHead v b0 b1 b2 with
      | some a =>
          have hr : rest.length ≤ f1 := by omega
          rw [reverseBytesFuel_eq v rest f1 hr]
          rfl
      | none =>
          have hr : (b1 :: b2 :: rest).length ≤ f1 := by
            simp only [List.length_cons]; omega
          rw [reverseBytesFuel_eq v (b1 :: b2 :: rest) f1 hr]
          rfl
termination_by s => s.length

/-- Encoding a byte below 0x80 that is not an ASCII digit writes the byte
itself: the `wchar_t` cast preserves it and UTF-8 encodes it as itself. -/
theorem utf8Encode_wideChar_ascii (v : Variant) (b : Nat) (hb : b < 0x80)
    (hd : ¬(0x30 ≤ b ∧ b ≤ 0x39)) : utf8Encode? (wideChar v b) = some [b] := by
  have h1 : wideChar v b = (b : Int) := by
    simp only [wideChar, if_neg hd, signedChar, if_pos hb]
  rw [h1]
  simp only [utf8Encode?]
  rw [if_neg (by omega : ¬((b : Int) < 0))]
  simp only [Int.toNat_natCast]
  rw [if_pos hb]

/-- Encode is byte-for-byte identity on strings of non-digit bytes that
are all below 0x80. -/
theorem convertBytes_eq_of_ascii_nondigit (v : Variant) (s : List Nat)
    (h : ∀ b ∈ s, b < 0x80 ∧ ¬(0x30 ≤ b ∧ b ≤ 0x39)) :
    convertBytes v s = some s := by
  induction s with
  | nil => rfl
  | cons b t ih =>
      have hb := h b (List.mem_cons_self b t)
      have ht : ∀ x ∈ t, x < 0x80 ∧ ¬(0x30 ≤ x ∧ x ≤ 0x39) :=
        fun x hx => h x (List.mem_cons_of_mem b hx)
      simp only [convertBytes, utf8Encode_wideChar_ascii v b hb.1 hb.2, ih ht]
      rfl

/-- Looking up any string other than the five registered names finds no
entry in the registry. -/
theorem getConverter_eq_none_of_unregistered (n : String)
    (h : n ∉ ["fullwidth", "circle", "roman", "chinese", "thai"]) :
    getConverter n = none := by
  simp only [List.mem_cons, List.not_mem_nil, or_false, not_or] at h
  obtain ⟨h1, h2, h3, h4, h5⟩ := h
  have e1 : ("fullwidth" == n) = false := beq_eq_false_iff_ne.mpr (Ne.symm h1)
  have e2 : ("circle" == n) = false := beq_eq_false_iff_ne.mpr (Ne.symm h2)
  have e3 : ("roman" == n) = false := beq_eq_false_iff_ne.mpr (Ne.symm h3)
  have e4 : ("chinese" == n) = false := beq_eq_false_iff_ne.mpr (Ne.symm h4)
  have e5 : ("thai" == n) = false := beq_eq_false_iff_ne.mpr (Ne.symm h5)
  simp [getConverter, registryList, variantName, List.find?, e1, e2, e3, e4, e5]

/-! ## Claim theorems -/

/-- C1: the claimed round trip over all variants fails on the code.  The
roman variant encodes digit 2 (byte 0x32) as U+2161 (bytes E2 85 A1), but
its reverse recognizes only digits 0 and 1, so decoding the encode of the
one-digit string passes the decorative bytes through unchanged instead of
returning the digit. -/
theorem roman_digit_two_not_roundtripped :
    convertBytes Variant.roman [0x32] = some [0xE2, 0x85, 0xA1] ∧
    reverseBytes Variant.roman [0xE2, 0x85, 0xA1] = [0xE2, 0x85, 0xA1] ∧
    ([0xE2, 0x85, 0xA1] : List Nat) ≠ [0x32] := by
  decide

/-- C2: the circle variant encodes digit 0 as U+24EA, whose UTF-8 bytes
are E2 93 AA, as claimed; but decoding those bytes does not return the
ASCII digit 0 — the decoder checks second byte 0x92 instead of 0x93, so
the sequence is passed through unchanged. -/
theorem circle_zero_decode_not_inverse :
    convertBytes Variant.circle [0x30] = some [0xE2, 0x93, 0xAA] ∧
    reverseBytes Variant.circle [0xE2, 0x93, 0xAA] = [0xE2, 0x93, 0xAA] ∧
    ([0xE2, 0x93, 0xAA] : List Nat) ≠ [0x30] := by
  decide

/-- C3: the chinese variant encodes "2024" (bytes 32 30 32 34) as the
UTF-8 of the four ideographs, as claimed; but its reverse recognizes only
digits 0 and 1, so decoding those bytes yields the ideograph for 2 and for
4 passed through unchanged with only the zero decoded, not "2024". -/
theorem chinese_2024_decode_diverges :
    convertBytes Variant.chinese [0x32, 0x30, 0x32, 0x34] =
      some [0xE4, 0xBA, 0x8C, 0xE3, 0x80, 0x87, 0xE4, 0xBA, 0x8C, 0xE5, 0x9B, 0x9B] ∧
    reverseBytes Variant.chinese
        [0xE4, 0xBA, 0x8C, 0xE3, 0x80, 0x87, 0xE4, 0xBA, 0x8C, 0xE5, 0x9B, 0x9B] =
      [0xE4, 0xBA, 0x8C, 0x30, 0xE4, 0xBA, 0x8C, 0xE5, 0x9B, 0x9B] ∧
    ([0xE4, 0xBA, 0x8C, 0x30, 0xE4, 0xBA, 0x8C, 0xE5, 0x9B, 0x9B] : List Nat) ≠
      [0x32, 0x30, 0x32, 0x34] := by
  decide

/-- C4: the fullwidth variant encodes "abc123" (bytes 61 62 63 31 32 33)
as "abc" followed by U+FF11 U+FF12 U+FF13 (EF BC 91, EF BC 92, EF BC 93),
and decoding that byte string returns "abc123". -/
theorem fullwidth_abc123_roundtrip :
    convertBytes Variant.fullwidth [0x61, 0x62, 0x63, 0x31, 0x32, 0x33] =
      some [0x61, 0x62, 0x63, 0xEF, 0xBC, 0x91, 0xEF, 0xBC, 0x92, 0xEF, 0xBC, 0x93] ∧
    reverseBytes Variant.fullwidth
        [0x61, 0x62, 0x63, 0xEF, 0xBC, 0x91, 0xEF, 0xBC, 0x92, 0xEF, 0xBC, 0x93] =
      [0x61, 0x62, 0x63, 0x31, 0x32, 0x33] := by
  decide

/-- C5 counterexample: encode is not the identity on bytes outside the
ASCII range.  The byte 0xC3 is cast to a negative `wchar_t`, which the
wide stream cannot convert to UTF-8, so the output is not the input byte
(under an unsigned `char` reading it would be the two bytes C3 83, still
not the input byte). -/
theorem encode_high_byte_not_identity :
    convertBytes Variant.fullwidth [0xC3] ≠ some [0xC3] := by
  decide

/-- C5 amended: for every variant, encode is byte-for-byte identity on
any string whose bytes are all below 0x80 and contain no ASCII digit. -/
theorem encode_identity_on_ascii_nondigit_strings (v : Variant) (s : List Nat)
    (h : ∀ b ∈ s, b < 0x80 ∧ ¬(0x30 ≤ b ∧ b ≤ 0x39)) :
    convertBytes v s = some s :=
  convertBytes_eq_of_ascii_nondigit v s h

/-- C5 witness: the amended statement applied to the thai variant and the
concrete digit-free ASCII string "a/z". -/
theorem encode_identity_on_ascii_nondigit_strings_witness :
    (∀ b ∈ ([0x61, 0x2F, 0x7A] : List Nat), b < 0x80 ∧ ¬(0x30 ≤ b ∧ b ≤ 0x39)) ∧
    convertBytes Variant.thai [0x61, 0x2F, 0x7A] = some [0x61, 0x2F, 0x7A] :=
  ⟨by decide, encode_identity_on_ascii_nondigit_strings Variant.thai _ (by decide)⟩

/-- C6: for every variant, decode is the identity on any byte string in
which no three-byte window matches one of the variant patterns; every
unrecognized byte is copied through unchanged. -/
theorem decode_identity_without_patterns (v : Variant) (s : List Nat)
    (h : hasMatch v s = false) : reverseBytes v s = s :=
  reverseBytes_eq_of_not_hasMatch v s h

/-- C6 witness: the theorem applied to the circle variant and a concrete
string holding an incomplete circled-digit prefix (E2 91 followed by a
byte outside the digit range). -/
theorem decode_identity_without_patterns_witness :
    hasMatch Variant.circle [0x61, 0xE2, 0x91, 0x61] = false ∧
    reverseBytes Variant.circle [0x61, 0xE2, 0x91, 0x61] = [0x61, 0xE2, 0x91, 0x61] :=
  ⟨by decide, decode_identity_without_patterns Variant.circle _ (by decide)⟩

/-- C7: decode is total by construction on arbitrary byte strings, its
output is never longer than its input, and when fewer than the three
required bytes remain no pattern can match, so the remaining bytes are
copied through one at a time. -/
theorem decode_total_and_bounded (v : Variant) (s : List Nat) :
    (reverseBytes v s).length ≤ s.length ∧
    (s.length < 3 → reverseBytes v s = s) :=
  ⟨reverseBytes_length_le v s, fun h => reverseBytes_eq_of_short v s h⟩

/-- C7 witness: the theorem applied to the thai variant and a truncated
two-byte prefix E0 B9 of a Thai digit. -/
theorem decode_total_and_bounded_witness :
    (reverseBytes Variant.thai [0xE0, 0xB9]).length ≤ 2 ∧
    reverseBytes Variant.thai [0xE0, 0xB9] = [0xE0, 0xB9] :=
  ⟨(decode_total_and_bounded Variant.thai [0xE0, 0xB9]).1,
   (decode_total_and_bounded Variant.thai [0xE0, 0xB9]).2 (by decide)⟩

/-- C8: registry lookup is an exact, case-sensitive string match; every
name outside the five registered names yields the empty result. -/
theorem getConverter_unregistered_none (n : String)
    (h : n ∉ ["fullwidth", "circle", "roman", "chinese", "thai"]) :
    getConverter n = none :=
  getConverter_eq_none_of_unregistered n h

/-- C8 witness: the theorem applied to the concrete unknown name
"not-a-real-type". -/
theorem getConverter_unregistered_none_witness :
    "not-a-real-type" ∉ ["fullwidth", "circle", "roman", "chinese", "thai"] ∧
    getConverter "not-a-real-type" = none :=
  ⟨by decide, getConverter_unregistered_none "not-a-real-type" (by decide)⟩

/-- C9: the decode loop terminates on every finite input within
`input.length` iterations, because every iteration advances the scan
position by at least one byte: with any fuel of at least the input length,
the fueled loop completes and computes exactly `reverseBytes`. -/
theorem decode_loop_terminates_in_length_steps (v : Variant) (s : List Nat)
    (f : Nat) (h : s.length ≤ f) :
    reverseBytesFuel v f s = some (reverseBytes v s) :=
  reverseBytesFuel_eq v s f h

/-- C9 witness: the theorem applied to the circle variant, a concrete
six-byte input, and fuel equal to its length. -/
theorem decode_loop_terminates_in_length_steps_witness :
    ([0xE2, 0x91, 0xA4, 0x61, 0xE2, 0x91] : List Nat).length ≤ 6 ∧
    reverseBytesFuel Variant.circle 6 [0xE2, 0x91, 0xA4, 0x61, 0xE2, 0x91] =
      some (reverseBytes Variant.circle [0xE2, 0x91, 0xA4, 0x61, 0xE2, 0x91]) :=
  ⟨by decide,
   decode_loop_terminates_in_length_steps Variant.circle
     [0xE2, 0x91, 0xA4, 0x61, 0xE2, 0x91] 6 (by decide)⟩

/-- C10: the roman variant encodes digit 0 as FULLWIDTH DIGIT ZERO U+FF10
(bytes EF BC 90), exactly as the fullwidth variant does, and the roman
decoder recognizes the byte sequence EF BC 90 as digit 0. -/
theorem roman_zero_matches_fullwidth :
    convertBytes Variant.roman [0x30] = convertBytes Variant.fullwidth [0x30] ∧
    convertBytes Variant.roman [0x30] = some [0xEF, 0xBC, 0x90] ∧
    reverseBytes Variant.roman [0xEF, 0xBC, 0x90] = [0x30] := by
  decide
